import Mathlib

/-!
Verification of the scpkg package-manager client (src/scpkg.py).

The data model and each operation are shallowly embedded:

* `Package` is the package-descriptor record (all fields are strings, as in
  the JSON catalog).
* The catalog (the parsed local database file) is a `List Package`, in file
  order.
* The installed set (the parsed contents of the installed-packages file) is an
  association list `List (String × Package)`; a Python dict preserves
  insertion order, key membership is `List.lookup`, assignment of a fresh key
  appends at the end, and `del` removes the (unique) entry with that key.
* Side effects are reified in an `Effect` record: the messages printed, the
  shell commands passed to `subprocess.run` (in order), the installed set
  written by `save_installed` (if any), and the text written to the local
  database file (if any).
* The interactive confirmation prompt is modelled by passing the response
  string (what `input()` returns) as an argument; `upgrade_all`, which prompts
  once per package, takes the sequence of responses as a function of the
  prompt index.
-/

namespace Scpkg

/-- A package descriptor: the object shape stored in the catalog file and in
the installed-packages file.  Field names follow the JSON keys. -/
structure Package where
  name : String
  desc : String
  version : String
  install : String
  remove : String
  update : String
  src : String
deriving Repr, DecidableEq

/-- The observable effects of one operation: messages printed, shell commands
executed via `subprocess.run` (in order), the installed set persisted by
`save_installed` (if the operation saved), and the content written to the
local database file (if the operation wrote it). -/
structure Effect where
  msgs : List String
  cmds : List String
  saved : Option (List (String × Package))
  dbWrite : Option String
deriving Repr, DecidableEq

/-- Python's `str.strip()`: drop leading and trailing whitespace. -/
def pyStrip (s : String) : String :=
  String.mk (((s.toList.dropWhile Char.isWhitespace).reverse.dropWhile
    Char.isWhitespace).reverse)

/-- Python's `str.lower()`: lowercase every character. -/
def pyLower (s : String) : String :=
  String.mk (s.toList.map Char.toLower)

/-- `confirm_action`: with `auto_confirm` the action is confirmed outright;
otherwise the response read from the prompt is stripped, lowercased and
compared with `'y'`. -/
def confirm_action (autoConfirm : Bool) (resp : String) : Bool :=
  if autoConfirm then true else pyLower (pyStrip resp) == "y"

/-- Python's `a in b` substring test as used in `search_package`
(`name.lower() in pkg['name'].lower()`): the needle's characters occur
contiguously in the haystack's. -/
def strContainsSub (hay needle : String) : Bool :=
  decide (List.IsInfix needle.toList hay.toList)

/-- The line `search_package` prints on a hit. -/
def foundMsg (pkg : Package) : String :=
  "Found package: " ++ pkg.name ++ " - " ++ pkg.desc ++ " (v" ++ pkg.version ++ ")"

/-- `search_package`: scan the catalog in order and report the first package
whose lowercased name contains the lowercased query; report not found
otherwise.  The loop returns at the first hit. -/
def search_package (query : String) : List Package → Effect
  | [] => ⟨["Package not found."], [], none, none⟩
  | pkg :: rest =>
    if strContainsSub (pyLower pkg.name) (pyLower query) then
      ⟨[foundMsg pkg], [], none, none⟩
    else
      search_package query rest

/-- The line `list_packages` prints for one catalog entry. -/
def listLine (pkg : Package) : String :=
  "- " ++ pkg.name ++ ": " ++ pkg.desc ++ " (v" ++ pkg.version ++ ")"

/-- `list_packages`: print a header and one line per catalog entry, in
catalog order. -/
def list_packages (db : List Package) : Effect :=
  ⟨"Available packages:" :: db.map listLine, [], none, none⟩

/-- `update_db`: on HTTP status 200 overwrite the local database file with the
response body verbatim and report success; on any other status report failure
and leave the file alone.  The first component of the result is the database
file content after the call (`dbFile` is its content before, `none` if the
file is absent). -/
def update_db (status : Nat) (body : String) (dbFile : Option String) :
    Option String × List String :=
  if status = 200 then
    (some body, ["Database updated successfully."])
  else
    (dbFile, ["Failed to update database."])

/-- `load_db` reads and JSON-parses the local database file; the parse step
(`json.load`) is external, so it is taken as a parameter.  Absent file or
failed parse is a fatal error, modelled as `none`. -/
def load_db_with (parse : String → Option (List Package)) (dbFile : Option String) :
    Option (List Package) :=
  dbFile.bind parse

/-- Installing message printed before the confirmation prompt. -/
def installingMsg (pkg : Package) : String :=
  "Installing " ++ pkg.name ++ " - " ++ pkg.desc ++ " (v" ++ pkg.version ++ ")"

/-- Already-installed message printed by `install_package`. -/
def alreadyMsg (name : String) : String :=
  name ++ " is already installed."

/-- Success message printed by `install_package` after saving. -/
def installedMsg (name : String) : String :=
  name ++ " installed successfully."

/-- `install_package`: scan the catalog for the first entry whose `name` field
equals the requested name.  On a hit: if the name is a key of the installed
set, report already-installed; otherwise announce, prompt, and on confirmation
run the entry's `install` command, add the entry to the installed set under
the name (a fresh dict key is appended at the end) and persist it.  The loop
returns after the first hit; if no catalog entry matches, report not found. -/
def install_package (name : String) (autoConfirm : Bool) (resp : String)
    (installed : List (String × Package)) : List Package → Effect
  | [] => ⟨["Package not found."], [], none, none⟩
  | pkg :: rest =>
    if pkg.name = name then
      if (installed.lookup name).isSome then
        ⟨[alreadyMsg name], [], none, none⟩
      else if confirm_action autoConfirm resp then
        ⟨[installingMsg pkg, installedMsg name], [pkg.install],
          some (installed ++ [(name, pkg)]), none⟩
      else
        ⟨[installingMsg pkg], [], none, none⟩
    else
      install_package name autoConfirm resp installed rest

/-- Python's `del installed[name]` on the association-list model: drop the
first (in a dict: the only) entry whose key is `name`. -/
def delKey (name : String) : List (String × Package) → List (String × Package)
  | [] => []
  | entry :: rest => if entry.1 = name then rest else entry :: delKey name rest

/-- Removing message printed by `remove_package` before the prompt. -/
def removingMsg (name : String) : String := "Removing " ++ name ++ "..."

/-- Success message printed by `remove_package` after saving. -/
def removedMsg (name : String) : String := name ++ " removed successfully."

/-- `remove_package`: if the name is a key of the installed set, announce,
prompt, and on confirmation run the stored descriptor's `remove` command,
delete the entry and persist; otherwise report not installed. -/
def remove_package (name : String) (autoConfirm : Bool) (resp : String)
    (installed : List (String × Package)) : Effect :=
  match installed.lookup name with
  | some pkg =>
    if confirm_action autoConfirm resp then
      ⟨[removingMsg name, removedMsg name], [pkg.remove],
        some (delKey name installed), none⟩
    else
      ⟨[removingMsg name], [], none, none⟩
  | none => ⟨["Package not installed."], [], none, none⟩

/-- Updating message printed by `update_package` before the prompt. -/
def updatingMsg (name : String) : String := "Updating " ++ name ++ "..."

/-- Success message printed by `update_package`. -/
def updatedMsg (name : String) : String := name ++ " updated successfully."

/-- `update_package`: if the name is a key of the installed set, announce,
prompt, and on confirmation run the stored descriptor's `update` command.
Nothing is ever saved; the not-installed case only prints. -/
def update_package (name : String) (autoConfirm : Bool) (resp : String)
    (installed : List (String × Package)) : Effect :=
  match installed.lookup name with
  | some pkg =>
    if confirm_action autoConfirm resp then
      ⟨[updatingMsg name, updatedMsg name], [pkg.update], none, none⟩
    else
      ⟨[updatingMsg name], [], none, none⟩
  | none => ⟨["Package not installed."], [], none, none⟩

/-- Upgrading message printed by `upgrade_all` for each entry. -/
def upgradingMsg (name : String) : String := "Upgrading " ++ name ++ "..."

/-- Success message printed by `upgrade_all` for one entry. -/
def upgradedMsg (name : String) : String := name ++ " upgraded to latest version."

/-- The loop body of `upgrade_all`, carrying the index of the next
confirmation prompt; `resps i` is the response typed at the i-th prompt. -/
def upgrade_loop (autoConfirm : Bool) (resps : Nat → String) :
    Nat → List (String × Package) → Effect
  | _, [] => ⟨[], [], none, none⟩
  | i, (name, pkg) :: rest =>
    let tail := upgrade_loop autoConfirm resps (i + 1) rest
    if confirm_action autoConfirm (resps i) then
      ⟨upgradingMsg name :: upgradedMsg name :: tail.msgs,
        pkg.update :: tail.cmds, tail.saved, tail.dbWrite⟩
    else
      ⟨upgradingMsg name :: tail.msgs, tail.cmds, tail.saved, tail.dbWrite⟩

/-- `upgrade_all`: iterate the installed set in insertion order and for each
entry announce, prompt, and on confirmation run that entry's stored `update`
command.  Nothing is ever saved. -/
def upgrade_all (autoConfirm : Bool) (resps : Nat → String)
    (installed : List (String × Package)) : Effect :=
  upgrade_loop autoConfirm resps 0 installed

/-- JSON values, restricted to the shapes the program reads and writes:
strings and objects (ordered field lists, as Python dicts preserve insertion
order).  The text layer (`json.dump` / `json.load`) is the standard library;
the round-trip claim is settled at the level of the JSON document. -/
inductive Json where
  | str : String → Json
  | obj : List (String × Json) → Json

/-- Read a JSON string value. -/
def getStr : Json → Option String
  | Json.str s => some s
  | _ => none

/-- The JSON object `json.dump` writes for one stored descriptor. -/
def encodePkg (p : Package) : Json :=
  Json.obj [("name", Json.str p.name), ("desc", Json.str p.desc),
    ("version", Json.str p.version), ("install", Json.str p.install),
    ("remove", Json.str p.remove), ("update", Json.str p.update),
    ("src", Json.str p.src)]

/-- Reading one descriptor back out of its JSON object: each required field
is looked up by key and must be a string. -/
def decodePkg : Json → Option Package
  | Json.obj fields =>
    ((fields.lookup "name").bind getStr).bind fun n =>
    ((fields.lookup "desc").bind getStr).bind fun d =>
    ((fields.lookup "version").bind getStr).bind fun v =>
    ((fields.lookup "install").bind getStr).bind fun i =>
    ((fields.lookup "remove").bind getStr).bind fun r =>
    ((fields.lookup "update").bind getStr).bind fun u =>
    ((fields.lookup "src").bind getStr).map fun s =>
    ⟨n, d, v, i, r, u, s⟩
  | _ => none

/-- `save_installed`: the JSON document `json.dump(installed, file, indent=4)`
writes — the object mapping each installed name to its stored descriptor, in
insertion order. -/
def save_installed (installed : List (String × Package)) : Json :=
  Json.obj (installed.map fun e => (e.1, encodePkg e.2))

/-- Reading the entries of the installed-packages object back, in order. -/
def decodeEntries : List (String × Json) → Option (List (String × Package))
  | [] => some []
  | (k, v) :: rest =>
    (decodePkg v).bind fun p => (decodeEntries rest).map fun r => (k, p) :: r

/-- `load_installed`: parse the installed-packages JSON document back into the
name-to-descriptor mapping. -/
def load_installed : Json → Option (List (String × Package))
  | Json.obj fields => decodeEntries fields
  | _ => none

/-- A concrete descriptor used to instantiate hypotheses of the theorems
below. -/
def pkgA : Package :=
  ⟨"alpha", "demo package", "1.0", "echo i", "echo r", "echo u", "https://example.com/alpha"⟩

/-- A second concrete descriptor. -/
def pkgB : Package :=
  ⟨"beta", "other package", "2.0", "echo bi", "echo br", "echo bu", "https://example.com/beta"⟩

/-! ### Helper lemmas -/

/-- A key that is not in the key list is not found by `lookup`. -/
theorem lookup_eq_none_of_not_mem (k : String) (l : List (String × Package))
    (h : k ∉ l.map Prod.fst) : l.lookup k = none := by
  induction l with
  | nil => rfl
  | cons e rest ih =>
    obtain ⟨k0, p⟩ := e
    simp only [List.map_cons, List.mem_cons, not_or] at h
    have hbeq : (k == k0) = false := beq_eq_false_iff_ne.mpr h.1
    simp [List.lookup, hbeq, ih h.2]

/-- `delKey` does not touch entries under other keys. -/
theorem lookup_delKey_of_ne (name k : String) (hk : k ≠ name)
    (l : List (String × Package)) : (delKey name l).lookup k = l.lookup k := by
  induction l with
  | nil => rfl
  | cons e rest ih =>
    obtain ⟨k0, p⟩ := e
    by_cases h : k0 = name
    · subst h
      have hbeq : (k == k0) = false := beq_eq_false_iff_ne.mpr hk
      simp [delKey, List.lookup, hbeq]
    · by_cases hke : k = k0
      · simp [delKey, h, List.lookup, hke]
      · have hbeq : (k == k0) = false := beq_eq_false_iff_ne.mpr hke
        simp [delKey, h, List.lookup, hbeq, ih]

/-- With distinct keys (a dict invariant), after `delKey` the key is gone. -/
theorem lookup_delKey_self (name : String) (l : List (String × Package))
    (hnd : (l.map Prod.fst).Nodup) : (delKey name l).lookup name = none := by
  induction l with
  | nil => rfl
  | cons e rest ih =>
    obtain ⟨k0, p⟩ := e
    simp only [List.map_cons, List.nodup_cons] at hnd
    by_cases h : k0 = name
    · simp only [delKey, h, if_pos]
      exact lookup_eq_none_of_not_mem name rest (h ▸ hnd.1)
    · have hbeq : (name == k0) = false :=
        beq_eq_false_iff_ne.mpr fun hkn => h hkn.symm
      simp [delKey, h, List.lookup, hbeq, ih hnd.2]

/-- `delKey` on a present key removes exactly one entry. -/
theorem delKey_length (name : String) (l : List (String × Package))
    (pkg : Package) (h : l.lookup name = some pkg) :
    (delKey name l).length + 1 = l.length := by
  induction l with
  | nil => simp [List.lookup] at h
  | cons e rest ih =>
    obtain ⟨k0, p⟩ := e
    by_cases hk : k0 = name
    · simp [delKey, hk]
    · have hbeq : (name == k0) = false :=
        beq_eq_false_iff_ne.mpr fun hkn => hk hkn.symm
      simp only [List.lookup, hbeq] at h
      simp [delKey, hk, ih h]

/-- `delKey` keeps the surviving entries, in order, unmodified. -/
theorem delKey_sublist (name : String) (l : List (String × Package)) :
    List.Sublist (delKey name l) l := by
  induction l with
  | nil => simp [delKey]
  | cons e rest ih =>
    by_cases h : e.1 = name
    · simp only [delKey, h, if_pos]
      exact List.sublist_cons_self e rest
    · simp only [delKey, h, if_neg, ite_false]
      exact ih.cons₂ e

/-- Neither branch of the `upgrade_all` loop ever saves the installed set. -/
theorem upgrade_loop_saved (autoConfirm : Bool) (resps : Nat → String)
    (i : Nat) (l : List (String × Package)) :
    (upgrade_loop autoConfirm resps i l).saved = none := by
  induction l generalizing i with
  | nil => rfl
  | cons e rest ih =>
    obtain ⟨n, p⟩ := e
    by_cases hc : confirm_action autoConfirm (resps i) = true
    · simp [upgrade_loop, hc, ih]
    · simp only [Bool.not_eq_true] at hc
      simp [upgrade_loop, hc, ih]

/-- Neither branch of the `upgrade_all` loop writes the database file. -/
theorem upgrade_loop_dbWrite (autoConfirm : Bool) (resps : Nat → String)
    (i : Nat) (l : List (String × Package)) :
    (upgrade_loop autoConfirm resps i l).dbWrite = none := by
  induction l generalizing i with
  | nil => rfl
  | cons e rest ih =>
    obtain ⟨n, p⟩ := e
    by_cases hc : confirm_action autoConfirm (resps i) = true
    · simp [upgrade_loop, hc, ih]
    · simp only [Bool.not_eq_true] at hc
      simp [upgrade_loop, hc, ih]

/-- Closed form of the commands run by the `upgrade_all` loop: one update
command per confirmed entry, in order, each gated only by its own prompt. -/
theorem upgrade_loop_cmds (autoConfirm : Bool) (resps : Nat → String)
    (l : List (String × Package)) : ∀ i : Nat,
    (upgrade_loop autoConfirm resps i l).cmds =
      (List.enumFrom i l).flatMap fun e =>
        if confirm_action autoConfirm (resps e.1) then [e.2.2.update] else [] := by
  induction l with
  | nil => intro i; rfl
  | cons e rest ih =>
    intro i
    obtain ⟨n, p⟩ := e
    by_cases hc : confirm_action autoConfirm (resps i) = true
    · simp [upgrade_loop, hc, List.enumFrom_cons, ih]
    · simp only [Bool.not_eq_true] at hc
      simp [upgrade_loop, hc, List.enumFrom_cons, ih]

/-- Closed form of the messages printed by the `upgrade_all` loop: every
entry is announced, in order, and each confirmed entry also gets its success
line. -/
theorem upgrade_loop_msgs (autoConfirm : Bool) (resps : Nat → String)
    (l : List (String × Package)) : ∀ i : Nat,
    (upgrade_loop autoConfirm resps i l).msgs =
      (List.enumFrom i l).flatMap fun e =>
        if confirm_action autoConfirm (resps e.1) then
          [upgradingMsg e.2.1, upgradedMsg e.2.1]
        else
          [upgradingMsg e.2.1] := by
  induction l with
  | nil => intro i; rfl
  | cons e rest ih =>
    intro i
    obtain ⟨n, p⟩ := e
    by_cases hc : confirm_action autoConfirm (resps i) = true
    · simp [upgrade_loop, hc, List.enumFrom_cons, ih]
    · simp only [Bool.not_eq_true] at hc
      simp [upgrade_loop, hc, List.enumFrom_cons, ih]

/-- Decoding inverts encoding on a single descriptor. -/
theorem decodePkg_encodePkg (p : Package) : decodePkg (encodePkg p) = some p := rfl

/-- When the catalog scan of `install_package` has a first hit, the result is
decided by the installed-set membership test and the confirmation gate. -/
theorem install_package_found (name resp : String) (autoConfirm : Bool)
    (installed : List (String × Package)) (db : List Package) (pkg : Package)
    (hfind : db.find? (fun p => p.name == name) = some pkg) :
    install_package name autoConfirm resp installed db =
      if (installed.lookup name).isSome then
        ⟨[alreadyMsg name], [], none, none⟩
      else if confirm_action autoConfirm resp then
        ⟨[installingMsg pkg, installedMsg name], [pkg.install],
          some (installed ++ [(name, pkg)]), none⟩
      else
        ⟨[installingMsg pkg], [], none, none⟩ := by
  induction db with
  | nil => simp [List.find?] at hfind
  | cons q rest ih =>
    by_cases h : q.name = name
    · have hb : (q.name == name) = true := beq_iff_eq.mpr h
      simp only [List.find?_cons, hb, Option.some.injEq] at hfind
      subst hfind
      simp [install_package, h]
    · have hb : (q.name == name) = false := beq_eq_false_iff_ne.mpr h
      simp only [List.find?_cons, hb] at hfind
      simp [install_package, h, ih hfind]

/-- When no catalog entry's name matches, `install_package` only reports not
found. -/
theorem install_package_no_hit (name resp : String) (autoConfirm : Bool)
    (installed : List (String × Package)) (db : List Package)
    (hfind : db.find? (fun p => p.name == name) = none) :
    install_package name autoConfirm resp installed db =
      ⟨["Package not found."], [], none, none⟩ := by
  induction db with
  | nil => rfl
  | cons q rest ih =>
    by_cases h : q.name = name
    · have hb : (q.name == name) = true := beq_iff_eq.mpr h
      simp [List.find?_cons, hb] at hfind
    · have hb : (q.name == name) = false := beq_eq_false_iff_ne.mpr h
      simp only [List.find?_cons, hb] at hfind
      simp [install_package, h, ih hfind]

/-! ### Claims -/

/-- C3: `search_package` emits the first descriptor in catalog order whose
name contains the query as a case-insensitive substring and stops there; if
no descriptor's name contains the query it reports not-found. -/
theorem search_package_first_match (query : String) (db : List Package) :
    search_package query db =
      match db.find? (fun pkg => strContainsSub (pyLower pkg.name) (pyLower query)) with
      | some pkg => ⟨[foundMsg pkg], [], none, none⟩
      | none => ⟨["Package not found."], [], none, none⟩ := by
  induction db with
  | nil => rfl
  | cons pkg rest ih =>
    by_cases h : strContainsSub (pyLower pkg.name) (pyLower query) = true
    · simp [search_package, List.find?_cons, h]
    · simp only [Bool.not_eq_true] at h
      simp [search_package, List.find?_cons, h, ih]

/-- C1 counterexample: with an empty catalog and `"alpha"` in the installed
set, `install_package` reports "Package not found.", not the
already-installed message, although the name is already installed — so the
already-installed report is not reached for names absent from the catalog. -/
theorem install_already_needs_catalog :
    (List.lookup "alpha" [("alpha", pkgA)]).isSome = true
    ∧ install_package "alpha" true "y" [("alpha", pkgA)] [] =
        ⟨["Package not found."], [], none, none⟩
    ∧ "Package not found." ≠ alreadyMsg "alpha" := by
  exact ⟨by decide, rfl, by decide⟩

/-- C1 (amended): if the name has a catalog hit (first exact-name match wins)
and is not installed, a confirmed install runs the hit's install command and
persists the installed set extended by exactly that descriptor under that
name; if the name has a catalog hit and is already installed, install only
reports already-installed and changes nothing; if the name is in neither the
catalog nor the installed set, install only reports not-found. -/
theorem install_package_cases (db : List Package)
    (installed : List (String × Package)) (name resp : String)
    (autoConfirm : Bool) :
    (∀ pkg, db.find? (fun p => p.name == name) = some pkg →
        installed.lookup name = none → confirm_action autoConfirm resp = true →
        install_package name autoConfirm resp installed db =
          ⟨[installingMsg pkg, installedMsg name], [pkg.install],
            some (installed ++ [(name, pkg)]), none⟩)
  ∧ (∀ pkg, db.find? (fun p => p.name == name) = some pkg →
        (installed.lookup name).isSome = true →
        install_package name autoConfirm resp installed db =
          ⟨[alreadyMsg name], [], none, none⟩)
  ∧ (db.find? (fun p => p.name == name) = none →
        installed.lookup name = none →
        install_package name autoConfirm resp installed db =
          ⟨["Package not found."], [], none, none⟩) := by
  refine ⟨?_, ?_, ?_⟩
  · intro pkg hfind hnone hc
    rw [install_package_found name resp autoConfirm installed db pkg hfind]
    simp [hnone, hc]
  · intro pkg hfind hsome
    rw [install_package_found name resp autoConfirm installed db pkg hfind]
    simp [hsome]
  · intro hfind _
    exact install_package_no_hit name resp autoConfirm installed db hfind

/-- C1 witness: a fresh confirmed install of `"alpha"` from a one-entry
catalog into an empty installed set records exactly that descriptor. -/
theorem install_package_cases_witness :
    install_package "alpha" false "y" [] [pkgA] =
      ⟨[installingMsg pkgA, installedMsg "alpha"], [pkgA.install],
        some [("alpha", pkgA)], none⟩ := by
  exact (install_package_cases [pkgA] [] "alpha" "y" false).1 pkgA
    (by decide) rfl (by decide)

/-- C10: a name present in the installed set but absent from the catalog gets
"Package not found." — which is never the already-installed message — and
nothing is run or saved: the catalog scan comes before the installed check. -/
theorem install_installed_not_in_catalog (db : List Package)
    (installed : List (String × Package)) (name resp : String)
    (autoConfirm : Bool) (habs : ∀ pkg ∈ db, pkg.name ≠ name)
    (_hin : (installed.lookup name).isSome = true) :
    install_package name autoConfirm resp installed db =
      ⟨["Package not found."], [], none, none⟩
    ∧ "Package not found." ≠ alreadyMsg name := by
  constructor
  · apply install_package_no_hit
    rw [List.find?_eq_none]
    intro p hp
    simp [beq_eq_false_iff_ne.mpr (habs p hp)]
  · intro hcontra
    have hlen := congrArg String.length hcontra
    have h1 : ("Package not found." : String).length = 18 := by decide
    have h2 : (" is already installed." : String).length = 22 := by decide
    rw [alreadyMsg, String.length_append, h1, h2] at hlen
    omega

/-- C10 witness: `"alpha"` is installed but the catalog holds only `pkgB`. -/
theorem install_installed_not_in_catalog_witness :
    install_package "alpha" true "y" [("alpha", pkgA)] [pkgB] =
      ⟨["Package not found."], [], none, none⟩
    ∧ "Package not found." ≠ alreadyMsg "alpha" := by
  exact install_installed_not_in_catalog [pkgB] [("alpha", pkgA)] "alpha" "y"
    true (by decide) (by decide)

/-- C9: saving the installed set and loading it back yields an equal mapping:
the same keys and, for each key, a descriptor with the same field values. -/
theorem save_load_roundtrip (installed : List (String × Package)) :
    load_installed (save_installed installed) = some installed := by
  show decodeEntries (installed.map fun e => (e.1, encodePkg e.2)) = some installed
  induction installed with
  | nil => rfl
  | cons e rest ih =>
    obtain ⟨k, p⟩ := e
    simp [decodeEntries, decodePkg_encodePkg, ih]

/-- C2: a confirmed remove of a present name runs the stored remove command
and persists the set with exactly that one entry deleted — one entry fewer,
every other key still bound to the same descriptor, the survivors kept
verbatim in order — while removing an absent name only reports not-installed
and writes nothing. -/
theorem remove_package_frame (installed : List (String × Package))
    (name resp : String) (autoConfirm : Bool) :
    (∀ pkg, installed.lookup name = some pkg →
        confirm_action autoConfirm resp = true →
        remove_package name autoConfirm resp installed =
          ⟨[removingMsg name, removedMsg name], [pkg.remove],
            some (delKey name installed), none⟩
        ∧ (delKey name installed).length + 1 = installed.length
        ∧ (∀ k, k ≠ name →
            (delKey name installed).lookup k = installed.lookup k)
        ∧ ((installed.map Prod.fst).Nodup →
            (delKey name installed).lookup name = none)
        ∧ List.Sublist (delKey name installed) installed)
  ∧ (installed.lookup name = none →
        remove_package name autoConfirm resp installed =
          ⟨["Package not installed."], [], none, none⟩) := by
  constructor
  · intro pkg hlk hc
    refine ⟨?_, delKey_length name installed pkg hlk,
      fun k hk => lookup_delKey_of_ne name k hk installed,
      fun hnd => lookup_delKey_self name installed hnd,
      delKey_sublist name installed⟩
    simp [remove_package, hlk, hc]
  · intro hlk
    simp [remove_package, hlk]

/-- C2 witness: confirmed removal of `"alpha"` from a two-entry set keeps
`"beta"` bound to its descriptor. -/
theorem remove_package_frame_witness :
    remove_package "alpha" false "y" [("alpha", pkgA), ("beta", pkgB)] =
      ⟨[removingMsg "alpha", removedMsg "alpha"], [pkgA.remove],
        some (delKey "alpha" [("alpha", pkgA), ("beta", pkgB)]), none⟩
    ∧ (delKey "alpha" [("alpha", pkgA), ("beta", pkgB)]).lookup "beta" =
        List.lookup "beta" [("alpha", pkgA), ("beta", pkgB)] := by
  have h := (remove_package_frame [("alpha", pkgA), ("beta", pkgB)] "alpha"
    "y" false).1 pkgA (by decide) (by decide)
  exact ⟨h.1, h.2.2.1 "beta" (by decide)⟩

/-- C5: when the confirmation gate evaluates to false, install, remove and
update run no command, never call `save_installed`, and never write the
database file, so both persisted files are untouched. -/
theorem decline_no_state_change (db : List Package)
    (installed : List (String × Package)) (name resp : String)
    (h : confirm_action false resp = false) :
    ((install_package name false resp installed db).cmds,
      (install_package name false resp installed db).saved,
      (install_package name false resp installed db).dbWrite) = ([], none, none)
  ∧ ((remove_package name false resp installed).cmds,
      (remove_package name false resp installed).saved,
      (remove_package name false resp installed).dbWrite) = ([], none, none)
  ∧ ((update_package name false resp installed).cmds,
      (update_package name false resp installed).saved,
      (update_package name false resp installed).dbWrite) = ([], none, none) := by
  refine ⟨?_, ?_, ?_⟩
  · induction db with
    | nil => rfl
    | cons q rest ih =>
      by_cases hq : q.name = name
      · cases hi : (installed.lookup name).isSome <;>
          simp [install_package, hq, hi, h]
      · simpa [install_package, hq] using ih
  · cases hlk : installed.lookup name <;> simp [remove_package, hlk, h]
  · cases hlk : installed.lookup name <;> simp [update_package, hlk, h]

/-- C5 witness: declining with `"n"` leaves every store untouched for all
three operations on a populated state. -/
theorem decline_no_state_change_witness :
    ((install_package "alpha" false "n" [("beta", pkgB)] [pkgA]).cmds,
      (install_package "alpha" false "n" [("beta", pkgB)] [pkgA]).saved,
      (install_package "alpha" false "n" [("beta", pkgB)] [pkgA]).dbWrite) =
        ([], none, none)
  ∧ ((remove_package "beta" false "n" [("beta", pkgB)]).cmds,
      (remove_package "beta" false "n" [("beta", pkgB)]).saved,
      (remove_package "beta" false "n" [("beta", pkgB)]).dbWrite) =
        ([], none, none)
  ∧ ((update_package "beta" false "n" [("beta", pkgB)]).cmds,
      (update_package "beta" false "n" [("beta", pkgB)]).saved,
      (update_package "beta" false "n" [("beta", pkgB)]).dbWrite) =
        ([], none, none) := by
  have h1 := decline_no_state_change [pkgA] [("beta", pkgB)] "alpha" "n"
    (by decide)
  have h2 := decline_no_state_change [pkgA] [("beta", pkgB)] "beta" "n"
    (by decide)
  exact ⟨h1.1, h2.2.1, h2.2.2⟩

/-- C6: a confirmed update of an installed name runs exactly the stored
descriptor's update command and performs no save, so the persisted entry —
every field of the stored descriptor included — is left as it was; update
never saves in any branch, and neither does upgrade. -/
theorem update_package_no_mutation (installed : List (String × Package))
    (name resp : String) (autoConfirm : Bool) (resps : Nat → String) :
    (∀ pkg, installed.lookup name = some pkg →
        confirm_action autoConfirm resp = true →
        update_package name autoConfirm resp installed =
          ⟨[updatingMsg name, updatedMsg name], [pkg.update], none, none⟩)
  ∧ (update_package name autoConfirm resp installed).saved = none
  ∧ (upgrade_all autoConfirm resps installed).saved = none := by
  refine ⟨?_, ?_, upgrade_loop_saved autoConfirm resps 0 installed⟩
  · intro pkg hlk hc
    simp [update_package, hlk, hc]
  · cases hlk : installed.lookup name with
    | some pkg =>
      cases hc : confirm_action autoConfirm resp <;>
        simp [update_package, hlk, hc]
    | none => simp [update_package, hlk]

/-- C6 witness: a confirmed update of `"alpha"` runs `pkgA`'s update command
and saves nothing. -/
theorem update_package_no_mutation_witness :
    update_package "alpha" false "y" [("alpha", pkgA)] =
      ⟨[updatingMsg "alpha", updatedMsg "alpha"], [pkgA.update], none, none⟩ := by
  exact (update_package_no_mutation [("alpha", pkgA)] "alpha" "y" false
    (fun _ => "")).1 pkgA (by decide) (by decide)

/-- C7: `upgrade_all` visits every installed entry once, in insertion order;
each entry is announced, and its stored update command runs exactly when its
own prompt is confirmed — the outcome at one entry never suppresses the step
at a later entry. -/
theorem upgrade_all_per_package (autoConfirm : Bool) (resps : Nat → String)
    (installed : List (String × Package)) :
    (upgrade_all autoConfirm resps installed).cmds =
      installed.enum.flatMap (fun e =>
        if confirm_action autoConfirm (resps e.1) then [e.2.2.update] else [])
  ∧ (upgrade_all autoConfirm resps installed).msgs =
      installed.enum.flatMap (fun e =>
        if confirm_action autoConfirm (resps e.1) then
          [upgradingMsg e.2.1, upgradedMsg e.2.1]
        else
          [upgradingMsg e.2.1]) :=
  ⟨upgrade_loop_cmds autoConfirm resps installed 0,
    upgrade_loop_msgs autoConfirm resps installed 0⟩

/-- C8: a refresh answered with any status other than 200 reports failure and
returns the catalog file unchanged, so a later load-and-list still produces
the stale catalog's listing; a 200 answer overwrites the file with the
response body verbatim and reports success. -/
theorem update_db_stale_on_failure (status : Nat) (body : String)
    (dbFile : Option String) :
    (status ≠ 200 →
        update_db status body dbFile = (dbFile, ["Failed to update database."])
        ∧ ∀ parse : String → Option (List Package), ∀ db : List Package,
            load_db_with parse dbFile = some db →
            load_db_with parse (update_db status body dbFile).1 = some db
            ∧ (load_db_with parse (update_db status body dbFile).1).map
                list_packages = some (list_packages db))
  ∧ update_db 200 body dbFile =
      (some body, ["Database updated successfully."]) := by
  constructor
  · intro h
    have he : update_db status body dbFile =
        (dbFile, ["Failed to update database."]) := by
      simp [update_db, h]
    refine ⟨he, fun parse db hload => ?_⟩
    rw [he]
    exact ⟨hload, by simp [hload]⟩
  · simp [update_db]

/-- C8 witness: a 404 keeps the cached file, and loading it still yields the
stale catalog. -/
theorem update_db_stale_on_failure_witness :
    update_db 404 "body" (some "cached") =
      (some "cached", ["Failed to update database."])
    ∧ load_db_with (fun _ => some [pkgA])
        (update_db 404 "body" (some "cached")).1 = some [pkgA] := by
  have h := (update_db_stale_on_failure 404 "body" (some "cached")).1
    (by decide)
  exact ⟨h.1, (h.2 (fun _ => some [pkgA]) [pkgA] rfl).1⟩

/-- C4 counterexample: the response `" y "` is not the string `"y"`, not even
case-insensitively, yet with `autoConfirm` false the gate accepts it: the
code strips surrounding whitespace before comparing. -/
theorem confirm_strip_counterexample :
    confirm_action false " y " = true
    ∧ pyLower " y " ≠ "y"
    ∧ " y " ≠ "y" := by
  exact ⟨by decide, by decide, by decide⟩

/-- C4 (amended): with `autoConfirm` false, the gate — and with it each
mutating operation: install, remove, update, and each step of upgrade
separately — proceeds exactly when the response, stripped of surrounding
whitespace, equals `y` case-insensitively; every other response cancels just
that operation. -/
theorem confirm_gate (db : List Package) (installed : List (String × Package))
    (name resp : String) (resps : Nat → String) :
    (confirm_action false resp = true ↔ pyLower (pyStrip resp) = "y")
  ∧ (∀ pkg, db.find? (fun p => p.name == name) = some pkg →
        installed.lookup name = none →
        ((install_package name false resp installed db).cmds ≠ [] ↔
          pyLower (pyStrip resp) = "y"))
  ∧ (∀ pkg, installed.lookup name = some pkg →
        ((remove_package name false resp installed).cmds ≠ [] ↔
          pyLower (pyStrip resp) = "y"))
  ∧ (∀ pkg, installed.lookup name = some pkg →
        ((update_package name false resp installed).cmds ≠ [] ↔
          pyLower (pyStrip resp) = "y"))
  ∧ ((upgrade_all false resps installed).cmds =
        installed.enum.flatMap fun e =>
          if pyLower (pyStrip (resps e.1)) == "y" then [e.2.2.update]
          else []) := by
  have hgate : ∀ r : String,
      (confirm_action false r = true ↔ pyLower (pyStrip r) = "y") := by
    intro r
    simp [confirm_action]
  have hneg : confirm_action false resp = false →
      ¬ pyLower (pyStrip resp) = "y" := by
    intro hc hy
    rw [(hgate resp).mpr hy] at hc
    exact absurd hc (by simp)
  refine ⟨hgate resp, ?_, ?_, ?_, ?_⟩
  · intro pkg hfind hnone
    rw [install_package_found name resp false installed db pkg hfind]
    simp only [hnone, Option.isSome_none, Bool.false_eq_true, if_false]
    cases hc : confirm_action false resp with
    | true => simp [(hgate resp).mp hc]
    | false => simp [hneg hc]
  · intro pkg hlk
    cases hc : confirm_action false resp with
    | true => simp [remove_package, hlk, hc, (hgate resp).mp hc]
    | false => simp [remove_package, hlk, hc, hneg hc]
  · intro pkg hlk
    cases hc : confirm_action false resp with
    | true => simp [update_package, hlk, hc, (hgate resp).mp hc]
    | false => simp [update_package, hlk, hc, hneg hc]
  · exact upgrade_loop_cmds false resps installed 0

/-- C4 witness: a confirmed fresh install proceeds with `"y"`, a declined
remove with `"n"` does not. -/
theorem confirm_gate_witness :
    ((install_package "alpha" false "y" [] [pkgA]).cmds ≠ [] ↔
      pyLower (pyStrip "y") = "y")
    ∧ ((remove_package "beta" false "n" [("beta", pkgB)]).cmds ≠ [] ↔
      pyLower (pyStrip "n") = "y") := by
  constructor
  · exact (confirm_gate [pkgA] [] "alpha" "y" (fun _ => "")).2.1 pkgA
      (by decide) rfl
  · exact (confirm_gate [] [("beta", pkgB)] "beta" "n" (fun _ => "")).2.2.1
      pkgB (by decide)

end Scpkg
